import Mathlib

/-!
Shallow embedding of the ledger core of the FinancasPessoais repository
(`src/electron/main.js`, which bundles the Electron shell together with two
variants of the database module: a better-sqlite3 variant and a callback-style
sqlite3 variant).  Monetary amounts are modelled as rationals (`ℚ`), JS
numbers used as integers as `Int`/`Nat`, calendar dates as year/month/day
triples, and the SQLite store as an explicit record of card and transaction
rows.  External-library behaviour that the code relies on (dayjs month
addition, better-sqlite3 `db.transaction` rollback, SQLite `ON DELETE SET
NULL`) is embedded according to the libraries' documented semantics.
-/

/-! ### Calendar dates (dayjs model) -/

/-- A calendar date, as handled by dayjs and by SQLite `date(...)` strings
(`YYYY-MM-DD`).  Month is 1-12 and day 1-31 for dates produced by the code;
the type itself does not enforce validity. -/
structure Date where
  y : Nat
  m : Nat
  d : Nat
deriving DecidableEq, Repr

/-- Gregorian leap-year rule, as implemented by dayjs. -/
def isLeap (y : Nat) : Bool :=
  (y % 4 == 0 && y % 100 != 0) || y % 400 == 0

/-- Number of days of month `m` of year `y` (dayjs `daysInMonth`). -/
def daysInMonth (y m : Nat) : Nat :=
  if m = 2 then (if isLeap y then 29 else 28)
  else if m = 4 ∨ m = 6 ∨ m = 9 ∨ m = 11 then 30
  else 31

/-- dayjs `.add(n, 'month')`: add `n` calendar months to a date, carrying
into the year, and clamp the day-of-month to the last valid day of the
target month (documented dayjs month-arithmetic semantics). -/
def addMonths (dt : Date) (n : Nat) : Date :=
  let t := dt.m - 1 + n
  let y := dt.y + t / 12
  let m := t % 12 + 1
  { y := y, m := m, d := min dt.d (daysInMonth y m) }

/-- Strict chronological order on dates (what SQLite's `date(...)` string
comparison computes on valid `YYYY-MM-DD` strings). -/
def Date.lt (a b : Date) : Prop :=
  a.y < b.y ∨ (a.y = b.y ∧ (a.m < b.m ∨ (a.m = b.m ∧ a.d < b.d)))

/-- Chronological order, non-strict. -/
def Date.le (a b : Date) : Prop :=
  a.y < b.y ∨ (a.y = b.y ∧ (a.m < b.m ∨ (a.m = b.m ∧ a.d ≤ b.d)))

instance (a b : Date) : Decidable (Date.lt a b) := by
  unfold Date.lt; infer_instance

instance (a b : Date) : Decidable (Date.le a b) := by
  unfold Date.le; infer_instance

/-! ### CentsDistributor (`centsDistribution` in both database variants) -/

/-- JS `Math.round`: round half toward positive infinity, `⌊x + 1/2⌋`.
Written with the executable `Rat.floor`; `jsRound_eq` relates it to `⌊·⌋`. -/
def jsRound (q : ℚ) : ℤ := Rat.floor (q + 1 / 2)

/-- Model of `centsDistribution(total, parts)`:
`totalCents = Math.round(Number(total) * 100)`;
`base = Math.floor(totalCents / parts)` (floor division, `Int.fdiv`);
`remainder = totalCents - base * parts`; part `index` gets
`base + (index < remainder ? 1 : 0)` cents, converted back by `/ 100`. -/
def centsDistribution (total : ℚ) (parts : Nat) : List ℚ :=
  let totalCents : ℤ := jsRound (total * 100)
  let base : ℤ := Int.fdiv totalCents parts
  let remainder : ℤ := totalCents - base * parts
  (((List.range parts).map fun (index : ℕ) =>
      base + (if (index : ℤ) < remainder then 1 else 0)).map
    fun (value : ℤ) => (value : ℚ) / 100)

/-! ### Data model: card and transaction rows -/

/-- Transaction kind; the `type` column is constrained to these two values. -/
inductive TType where
  | income
  | expense
deriving DecidableEq, Repr

/-- A row of the `transactions` table. -/
structure Row where
  id : Nat
  type : TType
  description : String
  category : String
  amount : ℚ
  transactionDate : Date
  cardId : Option Nat
  installments : Nat
  installmentNumber : Nat
  createdAt : Nat
deriving DecidableEq, Repr

/-- A row of the `cards` table. -/
structure Card where
  id : Nat
  name : String
  limitValue : ℚ
  closingDay : Nat
  dueDay : Nat
  brand : Option String
  createdAt : Nat
deriving DecidableEq, Repr

/-- The persisted store: both tables plus the AUTOINCREMENT counters. -/
structure DBState where
  cards : List Card
  transactions : List Row
  nextCardId : Nat
  nextTxnId : Nat
deriving DecidableEq, Repr

/-- The empty database produced by `initializeDatabase` (AUTOINCREMENT ids
start at 1). -/
def DBState.empty : DBState :=
  { cards := [], transactions := [], nextCardId := 1, nextTxnId := 1 }

/-! ### Requests -/

/-- Payload of `addTransaction` (`{type, description, category, amount,
transactionDate, installments, cardId}`).  `installments` is a JS number
used as an integer; `cardId` is `null` or a card id. -/
structure TxnRequest where
  type : String
  description : String
  category : String
  amount : ℚ
  transactionDate : Date
  installments : Int
  cardId : Option Nat
deriving DecidableEq, Repr

/-- Payload of `addCard` (`{name, limitValue, closingDay, dueDay, brand}`). -/
structure CardRequest where
  name : String
  limitValue : ℚ
  closingDay : Option Nat
  dueDay : Option Nat
  brand : Option String
deriving DecidableEq, Repr

/-- JS `x || d` on a possibly-null number: `null` and `0` are falsy. -/
def jsOrDefault (x : Option Nat) (d : Nat) : Nat :=
  match x with
  | none => d
  | some n => if n = 0 then d else n

/-- JS `cardId || null`: `null` and `0` both become `null`. -/
def jsOrNull (x : Option Nat) : Option Nat :=
  match x with
  | none => none
  | some n => if n = 0 then none else some n

/-- JS `brand?.trim() || null`: a null or all-whitespace brand is stored as
`NULL`. -/
def normalizeBrand (b : Option String) : Option String :=
  match b with
  | none => none
  | some s => if s.trim = "" then none else some s.trim

/-! ### InstallmentPlanner (the planning part of `addTransaction`) -/

/-- JS `type === 'income' ? 'income' : 'expense'`: anything that is not the
exact string `income` is stored as `expense`. -/
def normalizedType (t : String) : TType :=
  if t = "income" then .income else .expense

/-- Effective installment count:
`normalizedType === 'income' ? 1 : Math.max(1, Number(installments))`. -/
def effectiveInstallments (nty : TType) (installments : Int) : Nat :=
  if nty = .income then 1 else (max 1 installments).toNat

/-- One planned insert tuple of `addTransaction` (the row without the
id/created_at columns the database fills in). -/
structure Entry where
  type : TType
  description : String
  category : String
  amount : ℚ
  transactionDate : Date
  cardId : Option Nat
  installments : Nat
  installmentNumber : Nat
deriving DecidableEq, Repr

/-- The list `transactionEntries` that `addTransaction` builds: for
`i = 0 .. totalInstallments-1` the tuple
`[normalizedType, description.trim(), category.trim(), amounts[i],
dayjs(date).add(i,'month'), cardId || null, totalInstallments, i+1]`. -/
def addTransactionEntries (req : TxnRequest) : List Entry :=
  let nty := normalizedType req.type
  let totalInstallments := effectiveInstallments nty req.installments
  let amounts := centsDistribution req.amount totalInstallments
  (List.range totalInstallments).map fun i =>
    { type := nty
      description := req.description.trim
      category := req.category.trim
      amount := amounts.getD i 0
      transactionDate := addMonths req.transactionDate i
      cardId := jsOrNull req.cardId
      installments := totalInstallments
      installmentNumber := i + 1 }

/-- An entry as inserted, given the id and `created_at` the database
assigns. -/
def Entry.toRow (e : Entry) (id createdAt : Nat) : Row :=
  { id := id
    type := e.type
    description := e.description
    category := e.category
    amount := e.amount
    transactionDate := e.transactionDate
    cardId := e.cardId
    installments := e.installments
    installmentNumber := e.installmentNumber
    createdAt := createdAt }

/-! ### The two insert strategies of `addTransaction`

An insert may fail; the fault model is an oracle `ok : Nat → Bool` saying
whether the i-th `statement.run` call succeeds.  The oracle stands for every
failure cause of the real call — I/O errors as well as SQLite constraint
enforcement, in particular the `FOREIGN KEY(card_id) REFERENCES cards(id)`
check that `PRAGMA foreign_keys = ON` enables.  An instantiation of the
oracle is therefore only meaningful when it is realizable at the given
store: asserting success of an insert whose `card_id` references no
existing card would not be.  Every concrete oracle used below is realizable
(the inserted rows either carry no card reference or reference a card
present in the store). -/

/-- The sqlite3 variant's `insertNext` loop: run the inserts one at a time,
stopping at the first failure.  Returns the successfully inserted prefix and
whether the whole loop completed.  There is no enclosing SQL transaction, so
every successful insert is committed individually. -/
def insertLoop (ok : Nat → Bool) : List Entry → Nat → List Entry × Bool
  | [], _ => ([], true)
  | e :: rest, i =>
    if ok i then
      let (tail, s) := insertLoop ok rest (i + 1)
      (e :: tail, s)
    else ([], false)

/-- Rows created from consecutively inserted entries: AUTOINCREMENT ids from
`nextId` up, all sharing the batch `created_at` timestamp `now`
(`CURRENT_TIMESTAMP` of the insert). -/
def materialize : List Entry → Nat → Nat → List Row
  | [], _, _ => []
  | e :: rest, nextId, now => e.toRow nextId now :: materialize rest (nextId + 1) now

/-- Model of the sqlite3 variant of `addTransaction` (callback
`insertNext` loop, no transaction): the committed prefix stays in the table
whether or not the loop completed, and the AUTOINCREMENT counter advances
only for the rows actually committed. -/
def addTransactionS3 (ok : Nat → Bool) (st : DBState) (req : TxnRequest)
    (now : Nat) : DBState :=
  let entries := addTransactionEntries req
  let (inserted, _) := insertLoop ok entries 0
  { st with
    transactions := st.transactions ++ materialize inserted st.nextTxnId now
    nextTxnId := st.nextTxnId + inserted.length }

/-- Model of the better-sqlite3 variant of `addTransaction`
(`insertMany = db.transaction(...)`): better-sqlite3's documented semantics
roll back every write of the wrapped function when it throws, so on any
failure the table is left unchanged. -/
def addTransactionB3 (ok : Nat → Bool) (st : DBState) (req : TxnRequest)
    (now : Nat) : DBState :=
  let entries := addTransactionEntries req
  let (inserted, success) := insertLoop ok entries 0
  if success then
    { st with
      transactions := st.transactions ++ materialize inserted st.nextTxnId now
      nextTxnId := st.nextTxnId + entries.length }
  else st

/-! ### Card operations -/

/-- Model of `addCard`: no validation of any field; inserts
`(name.trim(), Number(limitValue), closingDay || 1, dueDay || 10,
brand?.trim() || null)`. -/
def addCard (st : DBState) (req : CardRequest) (now : Nat) : DBState :=
  { st with
    cards := st.cards ++
      [{ id := st.nextCardId
         name := req.name.trim
         limitValue := req.limitValue
         closingDay := jsOrDefault req.closingDay 1
         dueDay := jsOrDefault req.dueDay 10
         brand := normalizeBrand req.brand
         createdAt := now }]
    nextCardId := st.nextCardId + 1 }

/-- Model of `removeCard`: `DELETE FROM cards WHERE id = ?` under
`PRAGMA foreign_keys = ON` with `FOREIGN KEY(card_id) REFERENCES cards(id)
ON DELETE SET NULL`: if a card with that id exists it is deleted and every
transaction referencing it gets `card_id = NULL`; otherwise nothing
changes. -/
def removeCard (st : DBState) (cid : Nat) : DBState :=
  if st.cards.any fun c => c.id = cid then
    { st with
      cards := st.cards.filter fun c => ¬c.id = cid
      transactions := st.transactions.map fun t =>
        if t.cardId = some cid then { t with cardId := none } else t }
  else st

/-! ### Transaction removal -/

/-- Model of `removeTransaction`: `DELETE FROM transactions WHERE id = ?`. -/
def removeTransaction (st : DBState) (tid : Nat) : DBState :=
  { st with transactions := st.transactions.filter fun t => ¬t.id = tid }

/-! ### Read views -/

/-- Lexicographic comparison of a (date, number) sort key: strictly earlier
date, or equal date and `≤` on the tie-break number. -/
def dateNatLex (da : Date) (ca : Nat) (db : Date) (cb : Nat) : Prop :=
  Date.lt da db ∨ (da = db ∧ ca ≤ cb)

instance (da : Date) (ca : Nat) (db : Date) (cb : Nat) :
    Decidable (dateNatLex da ca db cb) := by
  unfold dateNatLex; infer_instance

/-- Comparator of `ORDER BY date(transaction_date) DESC, created_at DESC`:
`a` may precede `b` iff `b`'s key is `≤` `a`'s. -/
def txnDescRel (a b : Row) : Prop :=
  dateNatLex b.transactionDate b.createdAt a.transactionDate a.createdAt

instance : DecidableRel txnDescRel := by
  unfold txnDescRel; infer_instance

/-- Comparator of `ORDER BY date(transaction_date) ASC,
installment_number ASC` used by `getTransactionsByMonth`. -/
def monthAscRel (a b : Row) : Prop :=
  dateNatLex a.transactionDate a.installmentNumber
    b.transactionDate b.installmentNumber

instance : DecidableRel monthAscRel := by
  unfold monthAscRel; infer_instance

/-- Comparator of `ORDER BY year DESC, month DESC` on group keys. -/
def keyDescRel (a b : Nat × Nat) : Prop :=
  b.1 < a.1 ∨ (b.1 = a.1 ∧ b.2 ≤ a.2)

instance : DecidableRel keyDescRel := by
  unfold keyDescRel; infer_instance

/-- The transaction snapshot every mutation returns and `getAllData` reads:
`SELECT * FROM transactions ORDER BY date(transaction_date) DESC,
created_at DESC`. -/
def allTransactions (rows : List Row) : List Row :=
  List.insertionSort txnDescRel rows

/-- The card snapshot: `SELECT * FROM cards ORDER BY name ASC`. -/
def allCards (cards : List Card) : List Card :=
  List.insertionSort (fun a b => a.name ≤ b.name) cards

/-- Model of `getTransactionsByMonth(year, month)`: the inclusive range is
`[dayjs(year-month-01).startOf('month'), .endOf('month')]`, i.e. day 1 to
`daysInMonth`; rows are kept when `date(transaction_date) BETWEEN start AND
end` and ordered by `(date ASC, installment_number ASC)`. -/
def getTransactionsByMonth (rows : List Row) (year month : Nat) : List Row :=
  let start : Date := ⟨year, month, 1⟩
  let stop : Date := ⟨year, month, daysInMonth year month⟩
  List.insertionSort monthAscRel
    (rows.filter fun r =>
      decide (Date.le start r.transactionDate) &&
      decide (Date.le r.transactionDate stop))

/-! ### SavingsAggregator (`getSavingsHistory`) -/

/-- The `GROUP BY` key `strftime('%Y', d), strftime('%m', d)` of a row. -/
def monthKey (r : Row) : Nat × Nat :=
  (r.transactionDate.y, r.transactionDate.m)

/-- Group sum `SUM(CASE WHEN type = 'income' THEN amount ELSE 0 END)`. -/
def monthIncome (rows : List Row) (k : Nat × Nat) : ℚ :=
  ((rows.filter fun r =>
      decide (monthKey r = k) && decide (r.type = TType.income)).map
    (·.amount)).sum

/-- Group sum `SUM(CASE WHEN type = 'expense' THEN amount ELSE 0 END)`. -/
def monthExpense (rows : List Row) (k : Nat × Nat) : ℚ :=
  ((rows.filter fun r =>
      decide (monthKey r = k) && decide (r.type = TType.expense)).map
    (·.amount)).sum

/-- The distinct group keys, in `ORDER BY year DESC, month DESC` order. -/
def savingsKeys (rows : List Row) : List (Nat × Nat) :=
  List.insertionSort keyDescRel (rows.map monthKey).dedup

/-- One element of the history array built by `getSavingsHistory`. -/
structure SavingsEntry where
  year : Nat
  month : Nat
  income : ℚ
  expense : ℚ
  savings : ℚ
deriving DecidableEq, Repr

/-- Model of `getSavingsHistory`: per month-group the raw income and expense
sums, `savings = Math.max(income - expense, 0)`, and
`totalSaved = history.reduce((acc, e) => acc + e.savings, 0)`. -/
def getSavingsHistory (rows : List Row) : List SavingsEntry × ℚ :=
  let history := (savingsKeys rows).map fun k =>
    { year := k.1
      month := k.2
      income := monthIncome rows k
      expense := monthExpense rows k
      savings := max (monthIncome rows k - monthExpense rows k) 0 : SavingsEntry }
  (history, (history.map (·.savings)).sum)


/-! ### Lemmas about `centsDistribution` -/

theorem jsRound_eq (q : ℚ) : jsRound q = ⌊q + 1 / 2⌋ := by
  unfold jsRound
  rw [Rat.floor_def, Rat.floor_def']

theorem jsRound_intCast (n : ℤ) : jsRound ((n : ℤ) : ℚ) = n := by
  rw [jsRound_eq, Int.floor_int_add]
  have h : ⌊(1 / 2 : ℚ)⌋ = 0 := by
    rw [Int.floor_eq_zero_iff]
    constructor <;> norm_num
  omega

theorem centsInnerSum (base r : ℤ) (h0 : 0 ≤ r) :
    ∀ N : ℕ, (((List.range N).map fun (i : ℕ) =>
        base + if (i : ℤ) < r then 1 else 0).sum) = N * base + min r N := by
  intro N
  induction N with
  | zero =>
    simp only [List.range_zero, List.map_nil, List.sum_nil]
    omega
  | succ n ih =>
    rw [List.range_succ, List.map_append, List.sum_append, ih]
    rcases lt_or_ge (n : ℤ) r with h | h
    · simp only [List.map_cons, List.map_nil, List.sum_cons, List.sum_nil, if_pos h]
      push_cast
      have h1 : min r (n : ℤ) = (n : ℤ) := by omega
      have h2 : min r ((n : ℤ) + 1) = (n : ℤ) + 1 := by omega
      rw [h1, h2]
      ring
    · simp only [List.map_cons, List.map_nil, List.sum_cons, List.sum_nil, if_neg (not_lt.mpr h)]
      push_cast
      have h1 : min r (n : ℤ) = r := by omega
      have h2 : min r ((n : ℤ) + 1) = r := by omega
      rw [h1, h2]
      ring

theorem sum_map_div100 (l : List ℤ) :
    ((l.map fun (v : ℤ) => (v : ℚ) / 100).sum) = ((l.sum : ℤ) : ℚ) / 100 := by
  induction l with
  | nil => simp
  | cons x xs ih =>
    simp only [List.map_cons, List.sum_cons, ih, Int.cast_add]
    ring

theorem jsRound_total (tc : ℤ) (total : ℚ) (htotal : total = (tc : ℚ) / 100) :
    jsRound (total * 100) = tc := by
  have h : total * 100 = ((tc : ℤ) : ℚ) := by
    rw [htotal]
    field_simp
  rw [h, jsRound_intCast]

theorem centsDistribution_length (total : ℚ) (N : ℕ) :
    (centsDistribution total N).length = N := by
  simp only [centsDistribution]
  simp

theorem centsDistribution_sum (tc : ℤ) (total : ℚ) (N : ℕ)
    (htotal : total = (tc : ℚ) / 100) (hN : 1 ≤ N) :
    (centsDistribution total N).sum = total := by
  have hpos : (0 : ℤ) < (N : ℤ) := by exact_mod_cast hN
  have hd := Int.fdiv_add_fmod tc (N : ℤ)
  have hr0 : 0 ≤ Int.fmod tc (N : ℤ) := Int.fmod_nonneg' tc hpos
  have hrN : Int.fmod tc (N : ℤ) < (N : ℤ) := Int.fmod_lt_of_pos tc hpos
  have hrem : tc - Int.fdiv tc (N : ℤ) * (N : ℤ) = Int.fmod tc (N : ℤ) := by
    rw [mul_comm] at hd
    omega
  simp only [centsDistribution]
  rw [jsRound_total tc total htotal, hrem, sum_map_div100,
    centsInnerSum _ _ hr0 N]
  have hmin : min (Int.fmod tc (N : ℤ)) (N : ℤ) = Int.fmod tc (N : ℤ) := by omega
  rw [hmin, hd, htotal]

theorem centsDistribution_getD (tc : ℤ) (total : ℚ) (N : ℕ)
    (htotal : total = (tc : ℚ) / 100) (hN : 1 ≤ N) (i : ℕ) (hi : i < N) :
    (centsDistribution total N).getD i 0 =
      ((Int.fdiv tc (N : ℤ) +
        if (i : ℤ) < Int.fmod tc (N : ℤ) then 1 else 0 : ℤ) : ℚ) / 100 := by
  have hpos : (0 : ℤ) < (N : ℤ) := by exact_mod_cast hN
  have hd := Int.fdiv_add_fmod tc (N : ℤ)
  have hrem : tc - Int.fdiv tc (N : ℤ) * (N : ℤ) = Int.fmod tc (N : ℤ) := by
    rw [mul_comm] at hd
    omega
  simp only [centsDistribution]
  rw [jsRound_total tc total htotal, hrem, List.map_map,
    List.getD_eq_getElem?_getD, List.getElem?_map, List.getElem?_range hi]
  simp [Function.comp]

theorem centsDistribution_mem_bound (tc : ℤ) (total : ℚ) (N : ℕ)
    (htotal : total = (tc : ℚ) / 100) (hN : 1 ≤ N) :
    ∀ x ∈ centsDistribution total N, |x - total / (N : ℚ)| ≤ 1 / 100 := by
  have hpos : (0 : ℤ) < (N : ℤ) := by exact_mod_cast hN
  have hd := Int.fdiv_add_fmod tc (N : ℤ)
  have hr0 : 0 ≤ Int.fmod tc (N : ℤ) := Int.fmod_nonneg' tc hpos
  have hrN : Int.fmod tc (N : ℤ) < (N : ℤ) := Int.fmod_lt_of_pos tc hpos
  have hrem : tc - Int.fdiv tc (N : ℤ) * (N : ℤ) = Int.fmod tc (N : ℤ) := by
    rw [mul_comm] at hd
    omega
  have hNq : (0 : ℚ) < (N : ℚ) := by exact_mod_cast hN
  intro x hx
  simp only [centsDistribution, jsRound_total tc total htotal, hrem,
    List.map_map, List.mem_map, List.mem_range, Function.comp] at hx
  obtain ⟨i, hi, rfl⟩ := hx
  have key : ∀ w : ℤ, ((w : ℚ)) / 100 - total / (N : ℚ) =
      ((w * N - tc : ℤ) : ℚ) / (100 * N) := by
    intro w
    rw [htotal]
    field_simp
    ring
  set base := Int.fdiv tc (N : ℤ) with hbase
  have habs : ∀ w : ℤ, |w * (N : ℤ) - tc| ≤ (N : ℤ) →
      |((w : ℚ)) / 100 - total / (N : ℚ)| ≤ 1 / 100 := by
    intro w hw
    rw [key w, abs_div, abs_of_pos (by positivity : (0 : ℚ) < 100 * (N : ℚ)),
      div_le_div_iff₀ (by positivity) (by norm_num : (0 : ℚ) < 100)]
    rw [← Int.cast_abs]
    have hwq : ((|w * (N : ℤ) - tc| : ℤ) : ℚ) ≤ ((N : ℤ) : ℚ) := by exact_mod_cast hw
    push_cast at hwq ⊢
    nlinarith
  split
  · rename_i hcond
    refine habs (base + 1) ?_
    have hbn : base * (N : ℤ) = tc - Int.fmod tc (N : ℤ) := by omega
    have hcompute : (base + 1) * (N : ℤ) - tc = (N : ℤ) - Int.fmod tc (N : ℤ) := by
      rw [add_mul, one_mul, hbn]
      ring
    rw [hcompute, abs_of_nonneg (by omega)]
    omega
  · rename_i hcond
    refine habs (base + 0) ?_
    have hbn : base * (N : ℤ) = tc - Int.fmod tc (N : ℤ) := by omega
    have hcompute : (base + 0) * (N : ℤ) - tc = -(Int.fmod tc (N : ℤ)) := by
      rw [add_zero, hbn]
      ring
    rw [hcompute, abs_neg, abs_of_nonneg hr0]
    omega

/-! ### Order-relation facts for the snapshot comparators -/

theorem dateNatLex_total (da : Date) (ca : Nat) (db : Date) (cb : Nat) :
    dateNatLex da ca db cb ∨ dateNatLex db cb da ca := by
  obtain ⟨y1, m1, d1⟩ := da
  obtain ⟨y2, m2, d2⟩ := db
  simp only [dateNatLex, Date.lt, Date.mk.injEq]
  omega

theorem dateNatLex_trans (da : Date) (ca : Nat) (db : Date) (cb : Nat)
    (dc : Date) (cc : Nat) (h1 : dateNatLex da ca db cb)
    (h2 : dateNatLex db cb dc cc) : dateNatLex da ca dc cc := by
  obtain ⟨y1, m1, d1⟩ := da
  obtain ⟨y2, m2, d2⟩ := db
  obtain ⟨y3, m3, d3⟩ := dc
  simp only [dateNatLex, Date.lt, Date.mk.injEq] at h1 h2 ⊢
  omega

instance : IsTotal Row txnDescRel :=
  ⟨fun a b => dateNatLex_total b.transactionDate b.createdAt
    a.transactionDate a.createdAt⟩

instance : IsTrans Row txnDescRel :=
  ⟨fun a b c hab hbc => dateNatLex_trans c.transactionDate c.createdAt
    b.transactionDate b.createdAt a.transactionDate a.createdAt hbc hab⟩

instance : IsTotal Row monthAscRel :=
  ⟨fun a b => dateNatLex_total a.transactionDate a.installmentNumber
    b.transactionDate b.installmentNumber⟩

instance : IsTrans Row monthAscRel :=
  ⟨fun a b c hab hbc => dateNatLex_trans a.transactionDate a.installmentNumber
    b.transactionDate b.installmentNumber c.transactionDate c.installmentNumber
    hab hbc⟩

instance : IsTotal (Nat × Nat) keyDescRel :=
  ⟨fun a b => by
    simp only [keyDescRel]
    omega⟩

instance : IsTrans (Nat × Nat) keyDescRel :=
  ⟨fun a b c hab hbc => by
    simp only [keyDescRel] at hab hbc ⊢
    omega⟩

theorem allTransactions_perm (rows : List Row) :
    (allTransactions rows).Perm rows :=
  List.perm_insertionSort txnDescRel rows

theorem allTransactions_sorted (rows : List Row) :
    List.Sorted txnDescRel (allTransactions rows) :=
  List.sorted_insertionSort txnDescRel rows

theorem getTransactionsByMonth_perm (rows : List Row) (year month : Nat) :
    (getTransactionsByMonth rows year month).Perm
      (rows.filter fun r =>
        decide (Date.le ⟨year, month, 1⟩ r.transactionDate) &&
        decide (Date.le r.transactionDate
          ⟨year, month, daysInMonth year month⟩)) :=
  List.perm_insertionSort monthAscRel _

theorem getTransactionsByMonth_sorted (rows : List Row) (year month : Nat) :
    List.Sorted monthAscRel (getTransactionsByMonth rows year month) :=
  List.sorted_insertionSort monthAscRel _

theorem getTransactionsByMonth_mem (rows : List Row) (year month : Nat)
    (r : Row) : r ∈ getTransactionsByMonth rows year month ↔
      r ∈ rows ∧ Date.le ⟨year, month, 1⟩ r.transactionDate ∧
        Date.le r.transactionDate ⟨year, month, daysInMonth year month⟩ := by
  rw [(getTransactionsByMonth_perm rows year month).mem_iff, List.mem_filter]
  simp

/-! ### Lemmas about `getSavingsHistory` -/

theorem savingsKeys_sorted (rows : List Row) :
    List.Sorted keyDescRel (savingsKeys rows) :=
  List.sorted_insertionSort keyDescRel _

theorem savingsKeys_mem (rows : List Row) (k : Nat × Nat) :
    k ∈ savingsKeys rows ↔ ∃ r ∈ rows, monthKey r = k := by
  unfold savingsKeys
  rw [(List.perm_insertionSort keyDescRel _).mem_iff, List.mem_dedup,
    List.mem_map]

theorem savingsHistory_keys (rows : List Row) :
    ((getSavingsHistory rows).1.map fun e => (e.year, e.month)) =
      savingsKeys rows := by
  simp only [getSavingsHistory, List.map_map]
  exact List.map_id _

theorem savingsHistory_fields (rows : List Row) :
    ∀ e ∈ (getSavingsHistory rows).1,
      e.income = monthIncome rows (e.year, e.month) ∧
      e.expense = monthExpense rows (e.year, e.month) ∧
      e.savings = max (e.income - e.expense) 0 := by
  intro e he
  simp only [getSavingsHistory, List.mem_map] at he
  obtain ⟨k, _, rfl⟩ := he
  exact ⟨rfl, rfl, rfl⟩

theorem savingsHistory_sorted (rows : List Row) :
    List.Sorted
      (fun a b : SavingsEntry =>
        b.year < a.year ∨ (b.year = a.year ∧ b.month ≤ a.month))
      (getSavingsHistory rows).1 := by
  have h := savingsKeys_sorted rows
  simp only [getSavingsHistory]
  exact List.Pairwise.map _ (fun a b hab => hab) h

theorem savingsHistory_total (rows : List Row) :
    (getSavingsHistory rows).2 =
      ((getSavingsHistory rows).1.map fun e => e.savings).sum := rfl

/-! ### Lemmas about the insert loop -/

theorem insertLoop_all (ok : Nat → Bool) :
    ∀ (entries : List Entry) (i : Nat),
      (∀ j, j < entries.length → ok (i + j) = true) →
      insertLoop ok entries i = (entries, true) := by
  intro entries
  induction entries with
  | nil => intro i _; rfl
  | cons e rest ih =>
    intro i h
    have h0 : ok i = true := by
      have := h 0 (by simp)
      simpa using this
    simp only [insertLoop, h0, if_pos]
    rw [ih (i + 1) fun j hj => by
      have := h (j + 1) (by simpa using Nat.succ_lt_succ hj)
      rwa [show i + (j + 1) = i + 1 + j by omega] at this]

theorem insertLoop_stop (ok : Nat → Bool) :
    ∀ (entries : List Entry) (i k : Nat), k < entries.length →
      (∀ j, j < k → ok (i + j) = true) → ok (i + k) = false →
      insertLoop ok entries i = (entries.take k, false) := by
  intro entries
  induction entries with
  | nil => intro i k hk; simp at hk
  | cons e rest ih =>
    intro i k hk hok hfail
    match k with
    | 0 =>
      have h0 : ok i = false := by simpa using hfail
      simp only [insertLoop, h0, List.take_zero]
      rfl
    | k' + 1 =>
      have h0 : ok i = true := by
        have := hok 0 (by omega)
        simpa using this
      simp only [insertLoop, h0, if_pos, List.take_succ_cons]
      rw [ih (i + 1) k' (by simpa using hk)
        (fun j hj => by
          have := hok (j + 1) (by omega)
          rwa [show i + (j + 1) = i + 1 + j by omega] at this)
        (by rwa [show i + 1 + k' = i + (k' + 1) by omega])]

theorem addTransactionS3_all (ok : Nat → Bool) (st : DBState)
    (req : TxnRequest) (now : Nat)
    (h : ∀ j, j < (addTransactionEntries req).length → ok j = true) :
    (addTransactionS3 ok st req now).transactions =
      st.transactions ++
        materialize (addTransactionEntries req) st.nextTxnId now := by
  have hloop := insertLoop_all ok (addTransactionEntries req) 0 fun j hj => by
    simpa using h j hj
  simp only [addTransactionS3, hloop]

theorem addTransactionB3_all (ok : Nat → Bool) (st : DBState)
    (req : TxnRequest) (now : Nat)
    (h : ∀ j, j < (addTransactionEntries req).length → ok j = true) :
    (addTransactionB3 ok st req now).transactions =
      st.transactions ++
        materialize (addTransactionEntries req) st.nextTxnId now := by
  have hloop := insertLoop_all ok (addTransactionEntries req) 0 fun j hj => by
    simpa using h j hj
  simp only [addTransactionB3, hloop, if_pos]

theorem addTransactionS3_stop (ok : Nat → Bool) (st : DBState)
    (req : TxnRequest) (now : Nat) (k : Nat)
    (hk : k < (addTransactionEntries req).length)
    (hok : ∀ j, j < k → ok j = true) (hfail : ok k = false) :
    (addTransactionS3 ok st req now).transactions =
      st.transactions ++
        materialize ((addTransactionEntries req).take k) st.nextTxnId now := by
  have hloop := insertLoop_stop ok (addTransactionEntries req) 0 k hk
    (fun j hj => by simpa using hok j hj) (by simpa using hfail)
  simp only [addTransactionS3, hloop]

theorem addTransactionB3_stop (ok : Nat → Bool) (st : DBState)
    (req : TxnRequest) (now : Nat) (k : Nat)
    (hk : k < (addTransactionEntries req).length)
    (hok : ∀ j, j < k → ok j = true) (hfail : ok k = false) :
    (addTransactionB3 ok st req now).transactions = st.transactions := by
  have hloop := insertLoop_stop ok (addTransactionEntries req) 0 k hk
    (fun j hj => by simpa using hok j hj) (by simpa using hfail)
  simp only [addTransactionB3, hloop]
  rfl

/-! ### Lemmas about planned entries and materialized rows -/

theorem addTransactionEntries_length (req : TxnRequest) :
    (addTransactionEntries req).length =
      effectiveInstallments (normalizedType req.type) req.installments := by
  simp [addTransactionEntries]

theorem addTransactionEntries_mem (req : TxnRequest) :
    ∀ e ∈ addTransactionEntries req,
      e.type = normalizedType req.type ∧
      e.cardId = jsOrNull req.cardId ∧
      e.installments =
        effectiveInstallments (normalizedType req.type) req.installments := by
  intro e he
  simp only [addTransactionEntries, List.mem_map, List.mem_range] at he
  obtain ⟨i, hi, rfl⟩ := he
  exact ⟨rfl, rfl, rfl⟩

theorem addTransactionEntries_date (req : TxnRequest) (i : ℕ)
    (hi : i < effectiveInstallments (normalizedType req.type) req.installments) :
    ((addTransactionEntries req).map (·.transactionDate)).getD i
        req.transactionDate = addMonths req.transactionDate i := by
  simp only [addTransactionEntries, List.map_map, List.getD_eq_getElem?_getD,
    List.getElem?_map, List.getElem?_range hi]
  rfl

theorem addTransactionEntries_index (req : TxnRequest) (i : ℕ)
    (hi : i < effectiveInstallments (normalizedType req.type) req.installments) :
    ((addTransactionEntries req).map (·.installmentNumber)).getD i 0 = i + 1 := by
  simp only [addTransactionEntries, List.map_map, List.getD_eq_getElem?_getD,
    List.getElem?_map, List.getElem?_range hi]
  rfl

theorem materialize_mem (now : ℕ) :
    ∀ (l : List Entry) (nid : ℕ), ∀ r ∈ materialize l nid now,
      ∃ e ∈ l, r.type = e.type ∧ r.cardId = e.cardId ∧
        r.installments = e.installments ∧
        r.installmentNumber = e.installmentNumber ∧
        r.transactionDate = e.transactionDate ∧ r.amount = e.amount := by
  intro l
  induction l with
  | nil => intro nid r hr; simp [materialize] at hr
  | cons e rest ih =>
    intro nid r hr
    simp only [materialize, List.mem_cons] at hr
    rcases hr with rfl | hr
    · exact ⟨e, by simp, rfl, rfl, rfl, rfl, rfl, rfl⟩
    · obtain ⟨e', he', hfields⟩ := ih (nid + 1) r hr
      exact ⟨e', by simp [he'], hfields⟩

theorem materialize_length (now : ℕ) :
    ∀ (l : List Entry) (nid : ℕ), (materialize l nid now).length = l.length := by
  intro l
  induction l with
  | nil => intro nid; rfl
  | cons e rest ih => intro nid; simp [materialize, ih]

/-! ### Lemmas about card and transaction removal -/

theorem removeCard_spec' (st : DBState) (cid : ℕ)
    (hmem : (st.cards.any fun c => c.id = cid) = true) :
    (removeCard st cid).cards = (st.cards.filter fun c => ¬c.id = cid) ∧
    (removeCard st cid).transactions = st.transactions.map fun t =>
      if t.cardId = some cid then { t with cardId := none } else t := by
  unfold removeCard
  rw [if_pos hmem]
  exact ⟨rfl, rfl⟩

theorem removeTransaction_noop (st : DBState) (tid : ℕ)
    (h : ∀ t ∈ st.transactions, ¬t.id = tid) :
    removeTransaction st tid = st := by
  unfold removeTransaction
  have : (st.transactions.filter fun t => ¬t.id = tid) = st.transactions :=
    List.filter_eq_self.mpr fun t ht => by
      simpa using h t ht
  rw [this]

theorem removeCard_noop (st : DBState) (cid : ℕ)
    (h : ∀ c ∈ st.cards, ¬c.id = cid) :
    removeCard st cid = st := by
  unfold removeCard
  rw [if_neg]
  simp only [List.any_eq_true, not_exists, decide_eq_true_eq]
  push_neg
  intro c hc
  simpa using h c hc

/-! ### Concrete inputs used by witnesses and counterexamples -/

/-- A 4-installment expense request (claim inputs about group atomicity). -/
def expenseReq4 : TxnRequest :=
  { type := "expense", description := "tv", category := "home", amount := 100,
    transactionDate := ⟨2024, 1, 15⟩, installments := 4, cardId := none }

/-- An income request that also supplies a card id. -/
def incomeCardReq : TxnRequest :=
  { type := "income", description := "pay", category := "job", amount := 10,
    transactionDate := ⟨2024, 5, 1⟩, installments := 4, cardId := some 5 }

/-- The card with id 5 that `incomeCardReq` references. -/
def cardFive : Card :=
  { id := 5, name := "Visa", limitValue := 2000, closingDay := 1,
    dueDay := 10, brand := none, createdAt := 0 }

/-- A store holding the card with id 5, so that an insert carrying
`card_id = 5` satisfies the enforced FOREIGN KEY constraint and the
all-success oracle is realizable. -/
def stateWithCard5 : DBState :=
  { cards := [cardFive], transactions := [], nextCardId := 6, nextTxnId := 1 }

/-- The month-rollover example: start 2024-01-31, three installments. -/
def rolloverReq : TxnRequest :=
  { type := "expense", description := "a", category := "b", amount := 100,
    transactionDate := ⟨2024, 1, 31⟩, installments := 3, cardId := none }

/-- An invalid card request: empty name, negative limit. -/
def badCardReq : CardRequest :=
  { name := "", limitValue := -5, closingDay := none, dueDay := none,
    brand := none }

/-- A transaction request whose kind is neither income nor expense. -/
def unknownKindReq : TxnRequest :=
  { type := "gift", description := "x", category := "y", amount := 3,
    transactionDate := ⟨2024, 1, 1⟩, installments := 1, cardId := none }

/-- A small populated store used to witness removal behaviour. -/
def witnessCard : Card :=
  { id := 1, name := "Nubank", limitValue := 1000, closingDay := 1,
    dueDay := 10, brand := none, createdAt := 0 }

/-- A transaction row referencing `witnessCard`. -/
def witnessRow1 : Row :=
  { id := 1, type := .expense, description := "tv", category := "home",
    amount := 50, transactionDate := ⟨2024, 1, 10⟩, cardId := some 1,
    installments := 1, installmentNumber := 1, createdAt := 0 }

/-- A transaction row referencing no card. -/
def witnessRow2 : Row :=
  { id := 2, type := .income, description := "pay", category := "job",
    amount := 100, transactionDate := ⟨2024, 1, 5⟩, cardId := none,
    installments := 1, installmentNumber := 1, createdAt := 1 }

/-- The populated store itself. -/
def witnessState : DBState :=
  { cards := [witnessCard], transactions := [witnessRow1, witnessRow2],
    nextCardId := 2, nextTxnId := 3 }

/-! ### Claims -/

/-- C1: for every total `T = tc/100` with at most 2 fractional digits and
every count `N ≥ 1`, `centsDistribution` returns exactly `N` values whose
sum is `T` exactly, each within 1 cent of `T/N`, and part `i` carries
`base+1` cents exactly when `i < tc mod N` (the earliest parts, with
`base = floor(tc/N)`). -/
theorem centsDistribution_correct (tc : ℤ) (total : ℚ) (N : ℕ)
    (htotal : total = (tc : ℚ) / 100) (hN : 1 ≤ N) :
    (centsDistribution total N).length = N ∧
    (centsDistribution total N).sum = total ∧
    (∀ x ∈ centsDistribution total N, |x - total / (N : ℚ)| ≤ 1 / 100) ∧
    ∀ i : ℕ, i < N → (centsDistribution total N).getD i 0 =
      ((Int.fdiv tc (N : ℤ) +
        if (i : ℤ) < Int.fmod tc (N : ℤ) then 1 else 0 : ℤ) : ℚ) / 100 :=
  ⟨centsDistribution_length total N,
    centsDistribution_sum tc total N htotal hN,
    centsDistribution_mem_bound tc total N htotal hN,
    fun i hi => centsDistribution_getD tc total N htotal hN i hi⟩

/-- Witness for C1 at T = 100.00, N = 3. -/
theorem centsDistribution_correct_witness :
    (centsDistribution (((10000 : ℤ) : ℚ) / 100) 3).length = 3 ∧
    (centsDistribution (((10000 : ℤ) : ℚ) / 100) 3).sum =
      ((10000 : ℤ) : ℚ) / 100 ∧
    (∀ x ∈ centsDistribution (((10000 : ℤ) : ℚ) / 100) 3,
      |x - (((10000 : ℤ) : ℚ) / 100) / ((3 : ℕ) : ℚ)| ≤ 1 / 100) ∧
    ∀ i : ℕ, i < 3 →
      (centsDistribution (((10000 : ℤ) : ℚ) / 100) 3).getD i 0 =
        ((Int.fdiv 10000 ((3 : ℕ) : ℤ) +
          if (i : ℤ) < Int.fmod 10000 ((3 : ℕ) : ℤ) then 1 else 0 : ℤ) : ℚ) /
          100 :=
  centsDistribution_correct 10000 (((10000 : ℤ) : ℚ) / 100) 3 rfl (by decide)

/-- C8 counterexample: `centsDistribution` does not reject a negative
total; at total −1 with one part it returns the one-part distribution
`[-1]` instead of failing. -/
theorem centsDistribution_negative_counterexample :
    centsDistribution (-1) 1 = [-1] := by
  have h : jsRound ((-1 : ℚ) * 100) = -100 := by
    have h2 : ((-1 : ℚ) * 100) = ((-100 : ℤ) : ℚ) := by norm_num
    rw [h2, jsRound_intCast]
  have hfd : Int.fdiv (-100) ((1 : ℕ) : ℤ) = -100 := by decide
  simp only [centsDistribution, h, hfd]
  rw [show List.range 1 = [0] from rfl]
  simp only [List.map_cons, List.map_nil]
  norm_num

/-- C8 amended: `centsDistribution` performs no input validation: for any
negative total (at cent precision) and any count `N ≥ 1` it returns an
ordinary `N`-part distribution summing to the total, rather than
rejecting. -/
theorem centsDistribution_negative_total (tc : ℤ) (total : ℚ) (N : ℕ)
    (htotal : total = (tc : ℚ) / 100) (hneg : tc < 0) (hN : 1 ≤ N) :
    (centsDistribution total N).length = N ∧
    (centsDistribution total N).sum = total :=
  ⟨centsDistribution_length total N,
    centsDistribution_sum tc total N htotal hN⟩

/-- Witness for the amended C8 at total = −1.00, N = 1. -/
theorem centsDistribution_negative_total_witness :
    (centsDistribution (((-100 : ℤ) : ℚ) / 100) 1).length = 1 ∧
    (centsDistribution (((-100 : ℤ) : ℚ) / 100) 1).sum =
      ((-100 : ℤ) : ℚ) / 100 :=
  centsDistribution_negative_total (-100) (((-100 : ℤ) : ℚ) / 100) 1 rfl
    (by decide) (by decide)

/-- C2 counterexample: in the sqlite3 variant, a 4-installment insert whose
third `statement.run` fails leaves 2 of the 4 rows durably stored — a
subsequent read shows 2 rows, not 0. -/
theorem addTransaction_partial_group_counterexample :
    (addTransactionEntries expenseReq4).length = 4 ∧
    (addTransactionS3 (fun i => i < 2) DBState.empty expenseReq4
      0).transactions.length = 2 := by decide

/-- C2 amended: the better-sqlite3 variant of `addTransaction` is atomic
(on a failure partway the table is unchanged, on success all rows are
appended), but the sqlite3 variant commits each row individually, so a
failure at row `k` leaves exactly the first `k` rows of the group
stored. -/
theorem addTransaction_atomicity_by_variant (ok : Nat → Bool) (st : DBState)
    (req : TxnRequest) (now : Nat) (k : ℕ)
    (hk : k < (addTransactionEntries req).length)
    (hok : ∀ j, j < k → ok j = true) (hfail : ok k = false) :
    (addTransactionB3 ok st req now).transactions = st.transactions ∧
    (addTransactionS3 ok st req now).transactions =
      st.transactions ++
        materialize ((addTransactionEntries req).take k) st.nextTxnId now ∧
    ∀ ok' : Nat → Bool,
      (∀ j, j < (addTransactionEntries req).length → ok' j = true) →
      (addTransactionB3 ok' st req now).transactions =
        st.transactions ++
          materialize (addTransactionEntries req) st.nextTxnId now ∧
      (addTransactionS3 ok' st req now).transactions =
        st.transactions ++
          materialize (addTransactionEntries req) st.nextTxnId now :=
  ⟨addTransactionB3_stop ok st req now k hk hok hfail,
    addTransactionS3_stop ok st req now k hk hok hfail,
    fun ok' h => ⟨addTransactionB3_all ok' st req now h,
      addTransactionS3_all ok' st req now h⟩⟩

/-- Witness for the amended C2: 4-installment request, failure at row 2,
from the empty store. -/
theorem addTransaction_atomicity_by_variant_witness :
    (addTransactionB3 (fun i => i < 2) DBState.empty expenseReq4
        0).transactions = DBState.empty.transactions ∧
    (addTransactionS3 (fun i => i < 2) DBState.empty expenseReq4
        0).transactions =
      DBState.empty.transactions ++
        materialize ((addTransactionEntries expenseReq4).take 2)
          DBState.empty.nextTxnId 0 ∧
    ∀ ok' : Nat → Bool,
      (∀ j, j < (addTransactionEntries expenseReq4).length → ok' j = true) →
      (addTransactionB3 ok' DBState.empty expenseReq4 0).transactions =
        DBState.empty.transactions ++
          materialize (addTransactionEntries expenseReq4)
            DBState.empty.nextTxnId 0 ∧
      (addTransactionS3 ok' DBState.empty expenseReq4 0).transactions =
        DBState.empty.transactions ++
          materialize (addTransactionEntries expenseReq4)
            DBState.empty.nextTxnId 0 :=
  addTransaction_atomicity_by_variant (fun i => i < 2) DBState.empty
    expenseReq4 0 2 (by decide) (by decide) (by decide)

/-- C3 counterexample: on a store that holds card 5 (so the insert passes
the enforced FOREIGN KEY check and genuinely succeeds), an income request
that supplies card id 5 is stored with card reference 5, not null —
`addTransaction` does not clear the card reference for income. -/
theorem addTransaction_income_cardId_counterexample :
    (stateWithCard5.cards.any fun c => c.id = 5) = true ∧
    ((addTransactionB3 (fun _ => true) stateWithCard5 incomeCardReq
      0).transactions.map fun r => r.cardId) = [some 5] := by decide

/-- C3 amended: for every income request the stored group is exactly one
row with installment-count 1 and installment-index 1, but the card
reference is stored as supplied (`cardId || null`), not forced to null. -/
theorem addTransaction_income_normalization (ok : Nat → Bool) (st : DBState)
    (req : TxnRequest) (now : Nat)
    (hinc : normalizedType req.type = TType.income)
    (hok : ∀ j, j < (addTransactionEntries req).length → ok j = true) :
    (addTransactionB3 ok st req now).transactions =
      st.transactions ++
        materialize (addTransactionEntries req) st.nextTxnId now ∧
    (addTransactionEntries req).length = 1 ∧
    ∀ r ∈ materialize (addTransactionEntries req) st.nextTxnId now,
      r.installments = 1 ∧ r.installmentNumber = 1 ∧
        r.cardId = jsOrNull req.cardId := by
  have hlen : (addTransactionEntries req).length = 1 := by
    rw [addTransactionEntries_length, effectiveInstallments, if_pos hinc]
  refine ⟨addTransactionB3_all ok st req now hok, hlen, ?_⟩
  intro r hr
  obtain ⟨e, he, hty, hcard, hinst, hnum, -, -⟩ :=
    materialize_mem now (addTransactionEntries req) st.nextTxnId r hr
  have h1 : effectiveInstallments (normalizedType req.type) req.installments
      = 1 := by
    rw [effectiveInstallments, if_pos hinc]
  simp only [addTransactionEntries, List.mem_map, List.mem_range] at he
  obtain ⟨i, hi, rfl⟩ := he
  rw [h1] at hi
  have hi0 : i = 0 := by omega
  subst hi0
  refine ⟨?_, ?_, ?_⟩
  · rw [hinst]
    exact h1
  · rw [hnum]
  · rw [hcard]

/-- C4: `getSavingsHistory` groups transactions by calendar year/month,
reports raw income and expense sums per group, clamps savings at
`max (income - expense) 0`, orders groups by year then month descending,
and totals the already-clamped per-group savings. -/
theorem getSavingsHistory_correct (rows : List Row) :
    (∀ e ∈ (getSavingsHistory rows).1,
      e.income = monthIncome rows (e.year, e.month) ∧
      e.expense = monthExpense rows (e.year, e.month) ∧
      e.savings = max (e.income - e.expense) 0) ∧
    ((getSavingsHistory rows).1.map fun e => (e.year, e.month)) =
      savingsKeys rows ∧
    (∀ k : Nat × Nat, k ∈ savingsKeys rows ↔ ∃ r ∈ rows, monthKey r = k) ∧
    List.Sorted
      (fun a b : SavingsEntry =>
        b.year < a.year ∨ (b.year = a.year ∧ b.month ≤ a.month))
      (getSavingsHistory rows).1 ∧
    (getSavingsHistory rows).2 =
      ((getSavingsHistory rows).1.map fun e => e.savings).sum :=
  ⟨savingsHistory_fields rows, savingsHistory_keys rows,
    fun k => savingsKeys_mem rows k, savingsHistory_sorted rows,
    savingsHistory_total rows⟩

/-- C5: `removeCard` on an existing card id removes only that card; no
transaction is deleted, transactions that referenced the card stay present
with only the card reference cleared, and other transactions are
untouched. -/
theorem removeCard_non_cascade (st : DBState) (cid : ℕ)
    (hmem : (st.cards.any fun c => c.id = cid) = true) :
    (∀ c : Card, c ∈ (removeCard st cid).cards ↔
      c ∈ st.cards ∧ ¬c.id = cid) ∧
    (removeCard st cid).transactions.length = st.transactions.length ∧
    (∀ t ∈ st.transactions, t.cardId = some cid →
      { t with cardId := none } ∈ (removeCard st cid).transactions) ∧
    (∀ t ∈ st.transactions, ¬t.cardId = some cid →
      t ∈ (removeCard st cid).transactions) := by
  obtain ⟨hc, ht⟩ := removeCard_spec' st cid hmem
  refine ⟨?_, ?_, ?_, ?_⟩
  · intro c
    rw [hc, List.mem_filter]
    simp
  · rw [ht, List.length_map]
  · intro t htmem heq
    rw [ht, List.mem_map]
    exact ⟨t, htmem, by rw [if_pos heq]⟩
  · intro t htmem heq
    rw [ht, List.mem_map]
    exact ⟨t, htmem, by rw [if_neg heq]⟩

/-- Witness for C5 on a store with one card (id 1) referenced by one of two
transactions. -/
theorem removeCard_non_cascade_witness :
    (∀ c : Card, c ∈ (removeCard witnessState 1).cards ↔
      c ∈ witnessState.cards ∧ ¬c.id = 1) ∧
    (removeCard witnessState 1).transactions.length =
      witnessState.transactions.length ∧
    (∀ t ∈ witnessState.transactions, t.cardId = some 1 →
      { t with cardId := none } ∈ (removeCard witnessState 1).transactions) ∧
    (∀ t ∈ witnessState.transactions, ¬t.cardId = some 1 →
      t ∈ (removeCard witnessState 1).transactions) :=
  removeCard_non_cascade witnessState 1 (by decide)

/-- C6 counterexample: a card request with empty name and negative limit is
inserted, not rejected (the store changes), and a transaction request of
unknown kind `gift` is stored as an expense row instead of being
rejected. -/
theorem store_validation_counterexample :
    badCardReq.name = "" ∧
    badCardReq.limitValue < 0 ∧
    (addCard DBState.empty badCardReq 0).cards.length = 1 ∧
    ((addTransactionB3 (fun _ => true) DBState.empty unknownKindReq
      0).transactions.map fun r => r.type) = [TType.expense] := by
  refine ⟨rfl, ?_, by decide, by decide⟩
  norm_num [badCardReq]

/-- C6 amended: the store layer performs no validation: `addCard` inserts
exactly one card row for every request (whatever the name or limit), and
`addTransaction` stores any kind other than `income` as `expense` instead
of rejecting it. -/
theorem store_no_validation (st : DBState) (req : CardRequest) (now : ℕ)
    (treq : TxnRequest) (hkind : ¬treq.type = "income") :
    (addCard st req now).cards.length = st.cards.length + 1 ∧
    ∀ e ∈ addTransactionEntries treq, e.type = TType.expense := by
  constructor
  · simp [addCard]
  · intro e he
    have h := (addTransactionEntries_mem treq e he).1
    rw [h, normalizedType, if_neg hkind]

/-- Witness for the amended C6 at the empty-name negative-limit card
request and the `gift` transaction request. -/
theorem store_no_validation_witness :
    (addCard DBState.empty badCardReq 0).cards.length =
      DBState.empty.cards.length + 1 ∧
    ∀ e ∈ addTransactionEntries unknownKindReq, e.type = TType.expense :=
  store_no_validation DBState.empty badCardReq 0 unknownKindReq (by decide)

/-- C7: for an expense request, installment `i` (1-based) is dated
`(i-1)` calendar months after the start date, carrying months into the
year and clamping the day to the last valid day of the target month; in
particular start 2024-01-31 with 3 installments yields 2024-01-31,
2024-02-29 and 2024-03-31. -/
theorem installment_dates_correct (req : TxnRequest)
    (hexp : normalizedType req.type = TType.expense) :
    (∀ i : ℕ, 1 ≤ i →
      i ≤ effectiveInstallments (normalizedType req.type) req.installments →
      ((addTransactionEntries req).map fun e => e.transactionDate).getD
          (i - 1) req.transactionDate =
        ⟨req.transactionDate.y + (req.transactionDate.m - 1 + (i - 1)) / 12,
          (req.transactionDate.m - 1 + (i - 1)) % 12 + 1,
          min req.transactionDate.d
            (daysInMonth
              (req.transactionDate.y +
                (req.transactionDate.m - 1 + (i - 1)) / 12)
              ((req.transactionDate.m - 1 + (i - 1)) % 12 + 1))⟩) ∧
    ((addTransactionEntries rolloverReq).map fun e => e.transactionDate) =
      [⟨2024, 1, 31⟩, ⟨2024, 2, 29⟩, ⟨2024, 3, 31⟩] := by
  constructor
  · intro i h1 hN
    rw [addTransactionEntries_date req (i - 1) (by omega)]
    simp [addMonths]
  · decide

/-- Witness for C7 at the 2024-01-31 three-installment request. -/
theorem installment_dates_correct_witness :
    (∀ i : ℕ, 1 ≤ i →
      i ≤ effectiveInstallments (normalizedType rolloverReq.type)
            rolloverReq.installments →
      ((addTransactionEntries rolloverReq).map fun e =>
          e.transactionDate).getD (i - 1) rolloverReq.transactionDate =
        ⟨rolloverReq.transactionDate.y +
            (rolloverReq.transactionDate.m - 1 + (i - 1)) / 12,
          (rolloverReq.transactionDate.m - 1 + (i - 1)) % 12 + 1,
          min rolloverReq.transactionDate.d
            (daysInMonth
              (rolloverReq.transactionDate.y +
                (rolloverReq.transactionDate.m - 1 + (i - 1)) / 12)
              ((rolloverReq.transactionDate.m - 1 + (i - 1)) % 12 + 1))⟩) ∧
    ((addTransactionEntries rolloverReq).map fun e => e.transactionDate) =
      [⟨2024, 1, 31⟩, ⟨2024, 2, 29⟩, ⟨2024, 3, 31⟩] :=
  installment_dates_correct rolloverReq (by decide)

/-- C9: every transaction snapshot is sorted by date descending then
creation timestamp descending, and `getTransactionsByMonth` returns exactly
the rows dated within the month's inclusive [first-day, last-day] range,
sorted by date ascending then installment-index ascending. -/
theorem transaction_ordering_correct (rows : List Row) (year month : ℕ) :
    (allTransactions rows).Perm rows ∧
    List.Sorted txnDescRel (allTransactions rows) ∧
    (getTransactionsByMonth rows year month).Perm
      (rows.filter fun r =>
        decide (Date.le ⟨year, month, 1⟩ r.transactionDate) &&
        decide (Date.le r.transactionDate
          ⟨year, month, daysInMonth year month⟩)) ∧
    List.Sorted monthAscRel (getTransactionsByMonth rows year month) ∧
    ∀ r : Row, r ∈ getTransactionsByMonth rows year month ↔
      r ∈ rows ∧ Date.le ⟨year, month, 1⟩ r.transactionDate ∧
        Date.le r.transactionDate ⟨year, month, daysInMonth year month⟩ :=
  ⟨allTransactions_perm rows, allTransactions_sorted rows,
    getTransactionsByMonth_perm rows year month,
    getTransactionsByMonth_sorted rows year month,
    getTransactionsByMonth_mem rows year month⟩

/-- C10: removing a transaction or a card by an id that is not present
leaves the store exactly unchanged (a silent no-op), so the returned sets
are unchanged as well. -/
theorem remove_nonexistent_is_noop (st : DBState) (tid cid : ℕ)
    (htid : ∀ t ∈ st.transactions, ¬t.id = tid)
    (hcid : ∀ c ∈ st.cards, ¬c.id = cid) :
    removeTransaction st tid = st ∧ removeCard st cid = st :=
  ⟨removeTransaction_noop st tid htid, removeCard_noop st cid hcid⟩

/-- Witness for C10: ids 99 and 98 are absent from the populated store. -/
theorem remove_nonexistent_is_noop_witness :
    removeTransaction witnessState 99 = witnessState ∧
    removeCard witnessState 98 = witnessState :=
  remove_nonexistent_is_noop witnessState 99 98 (by decide) (by decide)

/-- Witness for the amended C3 at the income request supplying card id 5,
on the store that holds card 5 (so the all-success oracle is realizable
under the enforced FOREIGN KEY constraint). -/
theorem addTransaction_income_normalization_witness :
    (addTransactionB3 (fun _ => true) stateWithCard5 incomeCardReq
        0).transactions =
      stateWithCard5.transactions ++
        materialize (addTransactionEntries incomeCardReq)
          stateWithCard5.nextTxnId 0 ∧
    (addTransactionEntries incomeCardReq).length = 1 ∧
    ∀ r ∈ materialize (addTransactionEntries incomeCardReq)
        stateWithCard5.nextTxnId 0,
      r.installments = 1 ∧ r.installmentNumber = 1 ∧
        r.cardId = jsOrNull incomeCardReq.cardId :=
  addTransaction_income_normalization (fun _ => true) stateWithCard5
    incomeCardReq 0 (by decide) (by decide)
